import Mathlib

namespace ForgeRsx

/-- Markup node: element with tag, attributes and children; text/expression child;
    or a `for`-loop child holding the per-iteration body elements. -/
inductive Node where
  | elem (tag : String) (attrs : List (String × String)) (children : List Node)
  | text (s : String)
  | loop (bodies : List Node)
deriving Repr

/-- `"  ".repeat(d)` / `"    ".repeat(d)` selection from `rsx_muncher` line 201. -/
def indentAt (m d : Nat) : String :=
  match m with
  | 2 => String.join (List.replicate d "  ")
  | 4 => String.join (List.replicate d "    ")
  | _ => ""

/-- `let nl = if m > 0 { "\n" } else { "" }` from line 202. -/
def nlOf (m : Nat) : String := if m > 0 then "\n" else ""

/-- Rust `str::trim_matches('"')`: strip all leading and trailing `"` characters. -/
def trimQuote (s : String) : String :=
  String.mk (List.rdropWhile (fun c => c = '"') (s.data.dropWhile (fun c => c = '"')))

/-- Rust `str::starts_with(pat)` on our strings. -/
def startsWithStr (s pre : String) : Bool := pre.data.isPrefixOf s.data

/-- Rust `str::contains(char)`. -/
def containsChar (s : String) (c : Char) : Bool := s.data.contains c

def hasInfix (pat : List Char) : List Char → Bool
  | [] => pat.isEmpty
  | c :: cs => pat.isPrefixOf (c :: cs) || hasInfix pat cs

/-- Rust `str::contains(&str)`: substring test. -/
def containsSub (s pat : String) : Bool := hasInfix pat.data s.data

/-- Rust `val_str.replace("\\\"", "\"")`: left-to-right replacement of each
    backslash-quote pair by a bare quote. -/
def replaceEscQuote : List Char → List Char
  | [] => []
  | [c] => [c]
  | c1 :: c2 :: rest =>
      if c1 = '\\' ∧ c2 = '"' then '"' :: replaceEscQuote rest
      else c1 :: replaceEscQuote (c2 :: rest)

/-- One attribute fragment, from `rsx_muncher` lines 180-198. -/
def renderAttr (a : String × String) : String :=
  let key := trimQuote a.1
  let v := a.2
  if v = "true" then " " ++ key
  else if v = "false" then ""
  else if startsWithStr key ":" || startsWithStr key "@" || startsWithStr key "x-"
      || startsWithStr key "hx-" || containsChar v '"' || containsSub v "\\\"" then
    " " ++ key ++ "='" ++ String.mk (replaceEscQuote v.data) ++ "'"
  else
    " " ++ key ++ "=\"" ++ v ++ "\""

/-- The `attr_str` accumulation: fragments pushed in declared order. -/
def attrsString (attrs : List (String × String)) : String :=
  String.join (attrs.map renderAttr)

/-- The void-tag set from line 212. -/
def voidTags : List String :=
  ["area", "base", "br", "col", "embed", "hr", "img", "input", "link", "meta",
   "source", "track", "wbr"]

def isVoid (tag : String) : Bool := voidTags.contains tag

/-- The `inner_content` accumulation from lines 205-209 (also used for loop
    bodies, lines 250-256): push `nl` only when the accumulator is nonempty. -/
def innerAcc (nl : String) : String → List String → String
  | acc, [] => acc
  | acc, s :: rest => innerAcc nl (if acc = "" then acc ++ s else acc ++ nl ++ s) rest

mutual

/-- `rsx_muncher` termination rule (lines 168-221): render one node at mode `m`,
    depth `d`.  Children were collected pre-rendered at depth `d+1` (nested-tag
    rule line 245, braced-expression rule line 262, literal rule line 267); a
    loop child is the aggregate of its per-iteration bodies rendered at the
    loop's own depth (lines 249-258). -/
def render (m d : Nat) : Node → String
  | .text s => indentAt m d ++ s
  | .loop bodies => innerAcc (nlOf m) "" (renderList m d bodies)
  | .elem tag attrs children =>
      let attrStr := attrsString attrs
      let indent := indentAt m d
      let nl := nlOf m
      let inner := innerAcc nl "" (renderList m (d + 1) children)
      if isVoid tag then indent ++ "<" ++ tag ++ attrStr ++ ">"
      else if inner = "" then indent ++ "<" ++ tag ++ attrStr ++ "></" ++ tag ++ ">"
      else indent ++ "<" ++ tag ++ attrStr ++ ">" ++ nl ++ inner ++ nl ++ indent
        ++ "</" ++ tag ++ ">"

def renderList (m d : Nat) : List Node → List String
  | [] => []
  | n :: ns => render m d n :: renderList m d ns

end

/-- The 1-based character lookup from `lib.rs` lines 179-188: empty string when
    `index` is `0` or exceeds `s.chars().count()`, else the character at
    position `index` (1-based). -/
def get_char (s : String) (index : Nat) : String :=
  if index = 0 || index > s.data.length then ""
  else (s.data.getD (index - 1) ' ').toString

example : render 1 0 (.elem "p" [] []) = "<p></p>" := by rfl

example : render 1 0 (.elem "p" [] [.text "hi"]) = "<p>\nhi\n</p>" := by rfl

example : render 2 0 (.elem "p" [] [.text "hi"]) = "<p>\n  hi\n</p>" := by decide

/-- `nl ++ s₁ ++ nl ++ s₂ ++ ...`: the tail of a separator-join. -/
def joinTail (nl : String) : List String → String
  | [] => ""
  | s :: rest => nl ++ s ++ joinTail nl rest

/-- `s₁ ++ nl ++ s₂ ++ ...`: strings joined by the separator `nl`. -/
def joinSep (nl : String) : List String → String
  | [] => ""
  | s :: rest => s ++ joinTail nl rest

theorem append_ne_empty_left (a b : String) (h : a ≠ "") : a ++ b ≠ "" := by
  intro hc
  apply h
  apply String.ext
  have hd := congrArg String.data hc
  rw [String.data_append] at hd
  exact (List.append_eq_nil.mp hd).1

theorem innerAcc_of_ne_empty (nl : String) (l : List String) :
    ∀ acc : String, acc ≠ "" → innerAcc nl acc l = acc ++ joinTail nl l := by
  induction l with
  | nil =>
      intro acc _
      rw [innerAcc, joinTail, String.append_empty]
  | cons s rest ih =>
      intro acc hacc
      rw [innerAcc, if_neg hacc, ih _ (append_ne_empty_left _ _ (append_ne_empty_left _ _ hacc))]
      apply String.ext
      simp [String.data_append, joinTail]

theorem innerAcc_first_ne_empty (nl r : String) (rest : List String) (hr : r ≠ "") :
    innerAcc nl "" (r :: rest) = joinSep nl (r :: rest) := by
  rw [innerAcc, if_pos rfl,
    innerAcc_of_ne_empty nl rest ("" ++ r) (by rw [String.empty_append]; exact hr)]
  rw [joinSep, String.empty_append]

theorem innerAcc_no_sep (l : List String) :
    ∀ acc : String, innerAcc "" acc l = acc ++ joinTail "" l := by
  induction l with
  | nil =>
      intro acc
      rw [innerAcc, joinTail, String.append_empty]
  | cons s rest ih =>
      intro acc
      have hstep : innerAcc "" acc (s :: rest) = innerAcc "" (acc ++ s) rest := by
        rw [innerAcc]
        by_cases hacc : acc = ""
        · rw [if_pos hacc]
        · rw [if_neg hacc, String.append_empty]
      rw [hstep, ih]
      apply String.ext
      simp [String.data_append, joinTail]

theorem joinSep_no_sep (l : List String) : joinSep "" l = joinTail "" l := by
  cases l with
  | nil => rfl
  | cons s rest =>
      rw [joinSep, joinTail]
      apply String.ext
      simp [String.data_append]

/-- C6: `get_char` returns `""` when the 1-based index is `0` or exceeds the
    character count of `s`, and otherwise the `n`-th character (1-based) of `s`
    as a one-character string; in particular `get_char "Hello" 0 = ""`,
    `get_char "Hello" 1 = "H"` and `get_char "Hello" 50 = ""`. -/
theorem get_char_boundary_policy (s : String) (n : Nat) :
    ((n = 0 ∨ s.data.length < n) → get_char s n = "") ∧
    (1 ≤ n → n ≤ s.data.length → (get_char s n).data = (s.data.drop (n - 1)).take 1) ∧
    get_char "Hello" 0 = "" ∧ get_char "Hello" 1 = "H" ∧ get_char "Hello" 50 = "" := by
  refine ⟨?_, ?_, by decide, by decide, by decide⟩
  · intro h
    have hc : (decide (n = 0) || decide (n > s.data.length)) = true := by
      simp only [Bool.or_eq_true, decide_eq_true_eq]
      rcases h with h | h
      · exact Or.inl h
      · exact Or.inr h
    rw [get_char, if_pos hc]
  · intro h1 h2
    have hn : ¬(n = 0 || n > s.data.length) = true := by
      simp only [Bool.or_eq_true, decide_eq_true_eq, not_or]
      omega
    have hlt : n - 1 < s.data.length := by omega
    rw [get_char, if_neg hn, List.getD_eq_getElem _ _ hlt,
      List.drop_eq_getElem_cons hlt]
    rfl

/-- Witness for C6 at a concrete in-range index. -/
theorem get_char_boundary_policy_witness :
    (get_char "Hello" 2).data = ("Hello".data.drop 1).take 1 :=
  (get_char_boundary_policy "Hello" 2).2.1 (by decide) (by decide)

/-- C3: every tag in the fixed void set renders, in every mode, at every depth,
    with any attributes and any children, as exactly `indent ++ "<tag attrs>"`:
    no closing tag and no child content. -/
theorem void_tag_renders_self_closing (tag : String) (h : tag ∈ voidTags)
    (m d : Nat) (attrs : List (String × String)) (children : List Node) :
    render m d (.elem tag attrs children)
      = indentAt m d ++ "<" ++ tag ++ attrsString attrs ++ ">" := by
  have hv : isVoid tag = true := by
    simpa [isVoid] using h
  simp only [render, hv, if_true]

/-- Witness for C3: `br` with an attribute and a supplied child. -/
theorem void_tag_renders_self_closing_witness :
    render 2 1 (.elem "br" [("id", "x")] [.text "dropped"])
      = indentAt 2 1 ++ "<" ++ "br" ++ attrsString [("id", "x")] ++ ">" :=
  void_tag_renders_self_closing "br" (by decide) 2 1 [("id", "x")] [.text "dropped"]

/-- C4: an attribute whose rendered value is the literal `"true"` is emitted as
    a single space followed by the bare (quote-stripped) key, and one whose
    rendered value is `"false"` contributes nothing, whatever the key. -/
theorem bool_attr_rendering (k v : String) :
    (v = "true" → renderAttr (k, v) = " " ++ trimQuote k) ∧
    (v = "false" → renderAttr (k, v) = "") := by
  constructor
  · intro h; subst h; rfl
  · intro h; subst h; rfl

/-- Witness for C4: an identifier-style key with value `"true"` and a
    special-prefixed key with value `"false"`. -/
theorem bool_attr_rendering_witness :
    renderAttr ("defer", "true") = " " ++ trimQuote "defer"
      ∧ renderAttr (":open", "false") = "" :=
  ⟨(bool_attr_rendering "defer" "true").1 rfl,
   (bool_attr_rendering ":open" "false").2 rfl⟩

/-- C5: a non-void element with no children renders, in every mode and at every
    depth, as exactly `indent ++ "<tag attrs></tag>"` — no inner newline. -/
theorem childless_elem_renders_collapsed (tag : String) (h : isVoid tag = false)
    (m d : Nat) (attrs : List (String × String)) :
    render m d (.elem tag attrs [])
      = indentAt m d ++ "<" ++ tag ++ attrsString attrs ++ "></" ++ tag ++ ">" := by
  simp only [render, renderList, innerAcc, h, Bool.false_eq_true, if_false, if_true]

/-- Witness for C5: `p` with no children under 2-space indentation. -/
theorem childless_elem_renders_collapsed_witness :
    render 2 3 (.elem "p" [("class", "c")] [])
      = indentAt 2 3 ++ "<" ++ "p" ++ attrsString [("class", "c")] ++ "></" ++ "p" ++ ">" :=
  childless_elem_renders_collapsed "p" (by decide) 2 3 [("class", "c")]

/-- C2: for an attribute whose value is neither `"true"` nor `"false"`, the
    value is single-quoted (with each backslash-quote pair unescaped) exactly
    when the stripped key has one of the special prefixes or the value contains
    a double quote or a backslash-quote pair; otherwise it is double-quoted
    verbatim. -/
theorem attr_value_quoting (k v : String) (hT : v ≠ "true") (hF : v ≠ "false") :
    ((startsWithStr (trimQuote k) ":" || startsWithStr (trimQuote k) "@"
        || startsWithStr (trimQuote k) "x-" || startsWithStr (trimQuote k) "hx-"
        || containsChar v '"' || containsSub v "\\\"") = true →
      renderAttr (k, v)
        = " " ++ trimQuote k ++ "='" ++ String.mk (replaceEscQuote v.data) ++ "'")
    ∧ ((startsWithStr (trimQuote k) ":" || startsWithStr (trimQuote k) "@"
        || startsWithStr (trimQuote k) "x-" || startsWithStr (trimQuote k) "hx-"
        || containsChar v '"' || containsSub v "\\\"") = false →
      renderAttr (k, v) = " " ++ trimQuote k ++ "=\"" ++ v ++ "\"") := by
  constructor
  · intro hc
    rw [renderAttr]
    simp only [if_neg hT, if_neg hF, hc, if_true]
  · intro hc
    rw [renderAttr]
    simp only [if_neg hT, if_neg hF, hc, Bool.false_eq_true, if_false]

/-- Witness for C2: a `:`-prefixed key takes single quotes, a plain key/value
    pair takes double quotes. -/
theorem attr_value_quoting_witness :
    renderAttr (":cls", "p-4")
        = " " ++ trimQuote ":cls" ++ "='" ++ String.mk (replaceEscQuote "p-4".data) ++ "'"
    ∧ renderAttr ("href", "y") = " " ++ trimQuote "href" ++ "=\"" ++ "y" ++ "\"" :=
  ⟨(attr_value_quoting ":cls" "p-4" (by decide) (by decide)).1 (by decide),
   (attr_value_quoting "href" "y" (by decide) (by decide)).2 (by decide)⟩

theorem dropWhile_rdropWhile_dropWhile (q : Char → Bool) (l : List Char) :
    List.dropWhile q (List.rdropWhile q (List.dropWhile q l))
      = List.rdropWhile q (List.dropWhile q l) := by
  rw [List.dropWhile_eq_self_iff]
  intro hl
  have hpre := List.rdropWhile_prefix q (List.dropWhile q l)
  have hl' : 0 < (List.dropWhile q l).length := lt_of_lt_of_le hl hpre.length_le
  have hget := hpre.getElem (n := 0) (by simpa using hl)
  rw [List.get_eq_getElem, hget]
  have hz := List.dropWhile_get_zero_not q l hl'
  rw [List.get_eq_getElem] at hz
  exact hz

/-- Stripping leading/trailing quotes is idempotent. -/
theorem trimQuote_idem (s : String) : trimQuote (trimQuote s) = trimQuote s := by
  unfold trimQuote
  congr 1
  show List.rdropWhile _ (List.dropWhile _ (List.rdropWhile _ (List.dropWhile _ s.data))) = _
  rw [dropWhile_rdropWhile_dropWhile, List.rdropWhile_idempotent]

/-- C10: leading and trailing double quotes are stripped from the key before
    every rendering decision — rendering an attribute is unchanged by replacing
    the key with its stripped form — and a string-literal key such as
    `"x-show"` is emitted unquoted and triggers single-quoting. -/
theorem attr_key_quotes_stripped (k v : String) :
    renderAttr (k, v) = renderAttr (trimQuote k, v)
    ∧ renderAttr ("\"x-show\"", "open") = " x-show='open'"
    ∧ renderAttr ("\"id\"", "my-id") = " id=\"my-id\"" := by
  refine ⟨?_, by decide, by decide⟩
  rw [renderAttr, renderAttr]
  simp only [trimQuote_idem]

/-- C9: all attribute occurrences except `"false"`-valued ones are emitted in
    declared order immediately after the tag name, each fragment starting with
    a single space; occurrences are independent (concatenation is a
    homomorphism, so duplicate keys are neither merged nor deduplicated). -/
theorem attrs_in_order_not_deduped (m d : Nat) (tag : String)
    (attrs attrs' : List (String × String)) (children : List Node) :
    (∃ rest : String, render m d (.elem tag attrs children)
        = indentAt m d ++ "<" ++ tag ++ attrsString attrs ++ ">" ++ rest)
    ∧ attrsString (attrs ++ attrs') = attrsString attrs ++ attrsString attrs'
    ∧ (∀ a ∈ attrs, a.2 = "false" → renderAttr a = "")
    ∧ (∀ a ∈ attrs, a.2 ≠ "false" → (renderAttr a).data.head? = some ' ') := by
  refine ⟨?_, ?_, ?_, ?_⟩
  · rw [render]
    by_cases hv : isVoid tag = true
    · exact ⟨"", by rw [if_pos hv, String.append_empty]⟩
    · rw [if_neg hv]
      by_cases he : innerAcc (nlOf m) "" (renderList m (d + 1) children) = ""
      · refine ⟨"</" ++ tag ++ ">", ?_⟩
        rw [if_pos he]
        apply String.ext
        simp [String.data_append]
      · refine ⟨nlOf m ++ innerAcc (nlOf m) "" (renderList m (d + 1) children)
          ++ nlOf m ++ indentAt m d ++ "</" ++ tag ++ ">", ?_⟩
        rw [if_neg he]
        apply String.ext
        simp [String.data_append]
  · unfold attrsString
    rw [List.map_append]
    apply String.ext
    simp only [String.join_eq, String.data_append, List.map_append, List.flatten_append]
  · intro a _ hfalse
    rw [renderAttr]
    by_cases ht : a.2 = "true"
    · rw [hfalse] at ht; exact absurd ht (by decide)
    · rw [if_neg ht, if_pos hfalse]
  · intro a _ hfalse
    rw [renderAttr]
    by_cases ht : a.2 = "true"
    · rw [if_pos ht]
      simp [String.data_append]
    · rw [if_neg ht, if_neg hfalse]
      by_cases hq : (startsWithStr (trimQuote a.1) ":" || startsWithStr (trimQuote a.1) "@"
          || startsWithStr (trimQuote a.1) "x-" || startsWithStr (trimQuote a.1) "hx-"
          || containsChar a.2 '"' || containsSub a.2 "\\\"") = true
      · rw [if_pos hq]
        simp [String.data_append]
      · rw [if_neg hq]
        simp [String.data_append]

/-- Witness for C9: duplicate keys each render; a `"false"`-valued attribute
    renders as nothing; a kept fragment starts with a space. -/
theorem attrs_in_order_not_deduped_witness :
    attrsString ([("a", "1")] ++ [("a", "1")]) = attrsString [("a", "1")] ++ attrsString [("a", "1")]
    ∧ renderAttr ("b", "false") = ""
    ∧ (renderAttr ("a", "1")).data.head? = some ' ' :=
  ⟨(attrs_in_order_not_deduped 1 0 "p" [("a", "1")] [("a", "1")] []).2.1,
   (attrs_in_order_not_deduped 1 0 "p" [("b", "false")] [] []).2.2.1 ("b", "false")
     (by decide) rfl,
   (attrs_in_order_not_deduped 1 0 "p" [("a", "1")] [] []).2.2.2 ("a", "1")
     (by decide) (by decide)⟩

/-- C1 counterexample: under `btfy0` (`m = 1`), a `p` element whose sole child
    pre-renders to the empty string collapses to `<p></p>`, not to the claimed
    `<p>` ++ nl ++ (children joined by nl) ++ nl ++ indent ++ `</p>` form,
    which would be `<p>\n\n</p>`. -/
theorem nonvoid_children_render_counterexample :
    render 1 0 (.elem "p" [] [.text ""])
      ≠ indentAt 1 0 ++ "<" ++ "p" ++ attrsString [] ++ ">" ++ nlOf 1
          ++ joinSep (nlOf 1) (renderList 1 1 [.text ""]) ++ nlOf 1 ++ indentAt 1 0
          ++ "</" ++ "p" ++ ">" := by decide

/-- C1 (amended): a non-void element with at least one child renders as
    `indent ++ <tag attrs> ++ nl ++ (pre-rendered child strings joined by nl)
    ++ nl ++ indent ++ </tag>` — provided the mode is `Lined` (`m = 0`) or the
    first child's pre-rendered string is nonempty; leading empty child strings
    absorb their separator, and if every child renders empty the element
    collapses to `<tag attrs></tag>`. -/
theorem nonvoid_children_render (m d : Nat) (tag : String)
    (attrs : List (String × String)) (c : Node) (cs : List Node)
    (hv : isVoid tag = false)
    (h1 : m = 0 ∨ render m (d + 1) c ≠ "") :
    render m d (.elem tag attrs (c :: cs))
      = indentAt m d ++ "<" ++ tag ++ attrsString attrs ++ ">" ++ nlOf m
          ++ joinSep (nlOf m) (renderList m (d + 1) (c :: cs)) ++ nlOf m ++ indentAt m d
          ++ "</" ++ tag ++ ">" := by
  rcases h1 with h0 | hne
  · subst h0
    have hnl : nlOf 0 = "" := rfl
    have hind : indentAt 0 d = "" := rfl
    have hinner : innerAcc (nlOf 0) "" (renderList 0 (d + 1) (c :: cs))
        = joinSep (nlOf 0) (renderList 0 (d + 1) (c :: cs)) := by
      rw [hnl, innerAcc_no_sep, joinSep_no_sep, String.empty_append]
    rw [render, if_neg (by rw [hv]; exact Bool.false_ne_true)]
    by_cases he : innerAcc (nlOf 0) "" (renderList 0 (d + 1) (c :: cs)) = ""
    · rw [if_pos he]
      rw [hinner] at he
      rw [he, hnl, hind]
      apply String.ext
      simp [String.data_append]
    · rw [if_neg he, hinner, hnl, hind]
  · have hinner : innerAcc (nlOf m) "" (renderList m (d + 1) (c :: cs))
        = joinSep (nlOf m) (renderList m (d + 1) (c :: cs)) := by
      rw [renderList]
      exact innerAcc_first_ne_empty _ _ _ hne
    have hjne : joinSep (nlOf m) (renderList m (d + 1) (c :: cs)) ≠ "" := by
      rw [renderList, joinSep]
      exact append_ne_empty_left _ _ hne
    rw [render, if_neg (by rw [hv]; exact Bool.false_ne_true), hinner,
      if_neg hjne]

/-- Witness for C1 (amended) at `btfy0` with one nonempty text child. -/
theorem nonvoid_children_render_witness :
    render 1 0 (.elem "p" [] [.text "hi"])
      = indentAt 1 0 ++ "<" ++ "p" ++ attrsString [] ++ ">" ++ nlOf 1
          ++ joinSep (nlOf 1) (renderList 1 1 [.text "hi"]) ++ nlOf 1 ++ indentAt 1 0
          ++ "</" ++ "p" ++ ">" :=
  nonvoid_children_render 1 0 "p" [] (.text "hi") [] (by decide)
    (Or.inr (by decide))

/-- Loop bodies are restricted to a single element template. -/
def isElemNode : Node → Bool
  | .elem _ _ _ => true
  | _ => false

theorem render_elem_ne_empty (m d : Nat) (t : String)
    (a : List (String × String)) (c : List Node) :
    render m d (.elem t a c) ≠ "" := by
  have hone : ("<" : String).length = 1 := rfl
  have hempty : ("" : String).length = 0 := rfl
  rw [render]
  by_cases hv : isVoid t = true
  · rw [if_pos hv]
    intro hc
    have hl := congrArg String.length hc
    simp only [String.length_append] at hl
    omega
  · rw [if_neg hv]
    by_cases he : innerAcc (nlOf m) "" (renderList m (d + 1) c) = ""
    · rw [if_pos he]
      intro hc
      have hl := congrArg String.length hc
      simp only [String.length_append] at hl
      omega
    · rw [if_neg he]
      intro hc
      have hl := congrArg String.length hc
      simp only [String.length_append] at hl
      omega

theorem renderList_eq_map (m d : Nat) (l : List Node) :
    renderList m d l = l.map (render m d) := by
  induction l with
  | nil => rfl
  | cons n ns ih => rw [renderList, ih, List.map_cons]

/-- C8: a loop child over per-iteration body elements aggregates, at depth
    `d + 1`, into the concatenation of the bodies rendered once each at depth
    `d + 1`, joined by the mode's separator, and that aggregate sits at the
    loop's declared position in the child-string list. -/
theorem loop_child_aggregation (m d : Nat) (bodies pre post : List Node)
    (hb : ∀ b ∈ bodies, isElemNode b = true) :
    render m (d + 1) (.loop bodies)
        = joinSep (nlOf m) (renderList m (d + 1) bodies)
    ∧ renderList m (d + 1) (pre ++ .loop bodies :: post)
        = renderList m (d + 1) pre
            ++ render m (d + 1) (.loop bodies) :: renderList m (d + 1) post := by
  constructor
  · rw [render]
    cases bodies with
    | nil => rfl
    | cons b bs =>
        have hbe : isElemNode b = true := hb b (List.mem_cons_self b bs)
        have hne : render m (d + 1) b ≠ "" := by
          cases b with
          | elem t a c => exact render_elem_ne_empty m (d + 1) t a c
          | text s => exact absurd hbe (by simp [isElemNode])
          | loop l => exact absurd hbe (by simp [isElemNode])
        rw [renderList]
        exact innerAcc_first_ne_empty _ _ _ hne
  · rw [renderList_eq_map, renderList_eq_map, renderList_eq_map,
      List.map_append, List.map_cons]

/-- Witness for C8: a loop over three `li` bodies aggregates to the three
    individually rendered `li` strings joined by the separator and keeps its
    position among sibling children. -/
theorem loop_child_aggregation_witness :
    render 2 1 (.loop [.elem "li" [] [.text "a"], .elem "li" [] [.text "b"],
        .elem "li" [] [.text "c"]])
      = joinSep (nlOf 2) (renderList 2 1 [.elem "li" [] [.text "a"],
          .elem "li" [] [.text "b"], .elem "li" [] [.text "c"]]) :=
  (loop_child_aggregation 2 0 [.elem "li" [] [.text "a"], .elem "li" [] [.text "b"],
    .elem "li" [] [.text "c"]] [] [] (by decide)).1

/-- Delete every newline character of a string. -/
def stripNL (s : String) : String := String.mk (s.data.filter (fun c => c ≠ '\n'))

/-- The string contains no newline character. -/
def noNL (s : String) : Bool := s.data.all (fun c => c ≠ '\n')

mutual

/-- Every tag name, attribute key, attribute value and text content in the
    tree is newline-free. -/
def nodeNoNL : Node → Bool
  | .text s => noNL s
  | .elem tag attrs children =>
      noNL tag && attrs.all (fun a => noNL a.1 && noNL a.2) && nodesNoNL children
  | .loop bodies => nodesNoNL bodies

def nodesNoNL : List Node → Bool
  | [] => true
  | n :: ns => nodeNoNL n && nodesNoNL ns

end

theorem stripNL_append (a b : String) : stripNL (a ++ b) = stripNL a ++ stripNL b := by
  apply String.ext
  show ((a ++ b).data.filter _) = _
  rw [String.data_append, List.filter_append]
  rfl

theorem stripNL_of_noNL (s : String) (h : noNL s = true) : stripNL s = s := by
  apply String.ext
  show (s.data.filter _) = s.data
  exact List.filter_eq_self.mpr (List.all_eq_true.mp h)

theorem mem_replaceEscQuote : ∀ (l : List Char) (c : Char), c ∈ replaceEscQuote l → c ∈ l
  | [], c, h => by rw [replaceEscQuote] at h; exact absurd h (List.not_mem_nil c)
  | [a], c, h => by rw [replaceEscQuote] at h; exact h
  | a :: b :: rest, c, h => by
      rw [replaceEscQuote] at h
      by_cases hab : a = '\\' ∧ b = '"'
      · rw [if_pos hab] at h
        rcases List.mem_cons.mp h with h1 | h2
        · exact h1 ▸ List.mem_cons_of_mem _ (hab.2 ▸ List.mem_cons_self b rest)
        · exact List.mem_cons_of_mem _
            (List.mem_cons_of_mem _ (mem_replaceEscQuote rest c h2))
      · rw [if_neg hab] at h
        rcases List.mem_cons.mp h with h1 | h2
        · exact h1 ▸ List.mem_cons_self a (b :: rest)
        · exact List.mem_cons_of_mem _ (mem_replaceEscQuote (b :: rest) c h2)

theorem noNL_trimQuote (k : String) (h : noNL k = true) : noNL (trimQuote k) = true := by
  rw [noNL, List.all_eq_true] at h ⊢
  intro c hc
  apply h
  have hsub : List.Sublist (trimQuote k).data k.data := by
    show List.Sublist (List.rdropWhile _ (List.dropWhile _ k.data)) k.data
    exact ((List.rdropWhile_prefix _ _).sublist).trans (List.dropWhile_sublist _)
  exact hsub.subset hc

theorem noNL_replaceEscQuote (v : String) (h : noNL v = true) :
    noNL (String.mk (replaceEscQuote v.data)) = true := by
  rw [noNL, List.all_eq_true] at h ⊢
  intro c hc
  exact h c (mem_replaceEscQuote v.data c hc)

theorem noNL_append (a b : String) : noNL (a ++ b) = (noNL a && noNL b) := by
  rw [noNL, noNL, noNL, String.data_append, List.all_append]

theorem noNL_renderAttr (a : String × String)
    (h1 : noNL a.1 = true) (h2 : noNL a.2 = true) : noNL (renderAttr a) = true := by
  have hkey : noNL (trimQuote a.1) = true := noNL_trimQuote a.1 h1
  rw [renderAttr]
  by_cases hT : a.2 = "true"
  · rw [if_pos hT, noNL_append, hkey]
    rfl
  · rw [if_neg hT]
    by_cases hF : a.2 = "false"
    · rw [if_pos hF]; rfl
    · rw [if_neg hF]
      by_cases hq : (startsWithStr (trimQuote a.1) ":" || startsWithStr (trimQuote a.1) "@"
          || startsWithStr (trimQuote a.1) "x-" || startsWithStr (trimQuote a.1) "hx-"
          || containsChar a.2 '"' || containsSub a.2 "\\\"") = true
      · rw [if_pos hq]
        rw [noNL_append, noNL_append, noNL_append, noNL_append, hkey,
          noNL_replaceEscQuote a.2 h2]
        rfl
      · rw [if_neg hq]
        rw [noNL_append, noNL_append, noNL_append, noNL_append, hkey, h2]
        rfl

theorem attrsString_cons (a : String × String) (attrs : List (String × String)) :
    attrsString (a :: attrs) = renderAttr a ++ attrsString attrs := by
  unfold attrsString
  apply String.ext
  rw [List.map_cons, String.join_eq, String.join_eq, String.data_append]
  show (List.map _ _).flatten = _
  rw [List.map_cons, List.flatten_cons]

theorem noNL_attrsString (attrs : List (String × String))
    (h : attrs.all (fun a => noNL a.1 && noNL a.2) = true) :
    noNL (attrsString attrs) = true := by
  induction attrs with
  | nil => rfl
  | cons a rest ih =>
      rw [List.all_cons, Bool.and_eq_true, Bool.and_eq_true] at h
      rw [attrsString_cons, noNL_append, noNL_renderAttr a h.1.1 h.1.2, ih h.2]
      rfl

theorem stripNL_innerAcc (l : List String) :
    ∀ acc : String, stripNL (innerAcc "\n" acc l)
      = stripNL acc ++ joinTail "" (l.map stripNL) := by
  induction l with
  | nil =>
      intro acc
      rw [innerAcc, List.map_nil, joinTail, String.append_empty]
  | cons s rest ih =>
      intro acc
      rw [innerAcc]
      by_cases hacc : acc = ""
      · rw [if_pos hacc, ih, stripNL_append]
        apply String.ext
        simp [String.data_append, joinTail]
      · rw [if_neg hacc, ih, stripNL_append, stripNL_append,
          show stripNL "\n" = "" from rfl]
        apply String.ext
        simp [String.data_append, joinTail]

theorem joinTail_no_sep_eq_empty (l : List String) (h : joinTail "" l = "") :
    ∀ s ∈ l, s = "" := by
  induction l with
  | nil => intro s hs; exact absurd hs (List.not_mem_nil s)
  | cons s rest ih =>
      rw [joinTail] at h
      have hd := congrArg String.data h
      simp only [String.data_append] at hd
      rcases List.append_eq_nil.mp hd with ⟨h1, h2⟩
      rcases List.append_eq_nil.mp h1 with ⟨_, h3⟩
      intro x hx
      rcases List.mem_cons.mp hx with h4 | h5
      · exact h4 ▸ String.ext h3
      · exact ih (String.ext h2) x h5

theorem innerAcc_all_empty (nl : String) (l : List String)
    (h : ∀ s ∈ l, s = "") : innerAcc nl "" l = "" := by
  induction l with
  | nil => rfl
  | cons s rest ih =>
      have hs : s = "" := h s (List.mem_cons_self s rest)
      rw [innerAcc, if_pos rfl, hs]
      exact ih (fun x hx => h x (List.mem_cons_of_mem s hx))

mutual

/-- On a newline-free tree, `lined` output is the `btfy0` output with its
    newlines deleted; moreover a `btfy0` rendering that is all newlines is
    empty. -/
theorem render_lined_strips (d : Nat) (n : Node) (h : nodeNoNL n = true) :
    render 0 d n = stripNL (render 1 d n)
    ∧ (stripNL (render 1 d n) = "" → render 1 d n = "") := by
  cases n with
  | text s =>
      have hs : noNL s = true := by rw [nodeNoNL] at h; exact h
      constructor
      · show indentAt 0 d ++ s = stripNL (indentAt 1 d ++ s)
        rw [show indentAt 0 d = "" from rfl, show indentAt 1 d = "" from rfl,
          String.empty_append, stripNL_of_noNL s hs]
      · show stripNL (indentAt 1 d ++ s) = "" → indentAt 1 d ++ s = ""
        rw [show indentAt 1 d = "" from rfl, String.empty_append,
          stripNL_of_noNL s hs]
        exact id
  | elem tag attrs children =>
      rw [nodeNoNL, Bool.and_eq_true, Bool.and_eq_true] at h
      obtain ⟨⟨htag, hattrs⟩, hch⟩ := h
      have hT : stripNL tag = tag := stripNL_of_noNL tag htag
      have hA : stripNL (attrsString attrs) = attrsString attrs :=
        stripNL_of_noNL _ (noNL_attrsString attrs hattrs)
      obtain ⟨ihmap, ihP⟩ := renderList_lined_strips (d + 1) children hch
      have hlt : stripNL "<" = "<" := rfl
      have hgt : stripNL ">" = ">" := rfl
      have hcg : stripNL "></" = "></" := rfl
      have hcl : stripNL "</" = "</" := rfl
      have hem : stripNL "" = "" := rfl
      have hnl1 : stripNL (nlOf 1) = "" := rfl
      have hi0 : indentAt 0 d = "" := rfl
      have hi1 : indentAt 1 d = "" := rfl
      have hnl0 : nlOf 0 = "" := rfl
      have hone : ("<" : String).length = 1 := rfl
      have hzero : ("" : String).length = 0 := rfl
      have hs1 : stripNL (innerAcc (nlOf 1) "" (renderList 1 (d + 1) children))
          = joinTail "" ((renderList 1 (d + 1) children).map stripNL) := by
        rw [show nlOf 1 = "\n" from rfl, stripNL_innerAcc,
          show stripNL "" = "" from rfl, String.empty_append]
      have hinner : innerAcc (nlOf 0) "" (renderList 0 (d + 1) children)
          = stripNL (innerAcc (nlOf 1) "" (renderList 1 (d + 1) children)) := by
        rw [hs1, ← ihmap, show nlOf 0 = "" from rfl, innerAcc_no_sep,
          String.empty_append]
      have hP1 : stripNL (innerAcc (nlOf 1) "" (renderList 1 (d + 1) children)) = ""
          → innerAcc (nlOf 1) "" (renderList 1 (d + 1) children) = "" := by
        intro h0
        have hall : ∀ s ∈ renderList 1 (d + 1) children, s = "" := by
          intro s hsmem
          apply ihP s hsmem
          apply joinTail_no_sep_eq_empty _ (by rw [← hs1]; exact h0)
          exact List.mem_map_of_mem _ hsmem
        rw [show nlOf 1 = "\n" from rfl]
        exact innerAcc_all_empty "\n" _ hall
      constructor
      · rw [render, render]
        by_cases hv : isVoid tag = true
        · rw [if_pos hv, if_pos hv]
          simp only [stripNL_append, hT, hA, hlt, hgt, hem, hi0, hi1]
        · rw [if_neg hv, if_neg hv]
          by_cases he1 : innerAcc (nlOf 1) "" (renderList 1 (d + 1) children) = ""
          · have he0 : innerAcc (nlOf 0) "" (renderList 0 (d + 1) children) = "" := by
              rw [hinner, he1, hem]
            rw [if_pos he0, if_pos he1]
            simp only [stripNL_append, hT, hA, hlt, hgt, hcg, hem, hi0, hi1]
          · have he0 : ¬(innerAcc (nlOf 0) "" (renderList 0 (d + 1) children) = "") := by
              intro h0
              exact he1 (hP1 (by rw [← hinner]; exact h0))
            rw [if_neg he0, if_neg he1]
            simp only [stripNL_append, hT, hA, hlt, hgt, hcl, hem, hnl1, hi0, hi1,
              hnl0, ← hinner]
      · intro h0
        exfalso
        rw [render] at h0
        by_cases hv : isVoid tag = true
        · rw [if_pos hv] at h0
          simp only [stripNL_append] at h0
          have hl := congrArg String.length h0
          simp only [String.length_append, hlt, hi1, hem] at hl
          omega
        · rw [if_neg hv] at h0
          by_cases he1 : innerAcc (nlOf 1) "" (renderList 1 (d + 1) children) = ""
          · rw [if_pos he1] at h0
            simp only [stripNL_append] at h0
            have hl := congrArg String.length h0
            simp only [String.length_append, hlt, hi1, hem] at hl
            omega
          · rw [if_neg he1] at h0
            simp only [stripNL_append] at h0
            have hl := congrArg String.length h0
            simp only [String.length_append, hlt, hi1, hem] at hl
            omega
  | loop bodies =>
      have hch : nodesNoNL bodies = true := by rw [nodeNoNL] at h; exact h
      obtain ⟨ihmap, ihP⟩ := renderList_lined_strips d bodies hch
      have hs1 : stripNL (innerAcc (nlOf 1) "" (renderList 1 d bodies))
          = joinTail "" ((renderList 1 d bodies).map stripNL) := by
        rw [show nlOf 1 = "\n" from rfl, stripNL_innerAcc,
          show stripNL "" = "" from rfl, String.empty_append]
      constructor
      · rw [render, render, hs1, ← ihmap, show nlOf 0 = "" from rfl,
          innerAcc_no_sep, String.empty_append]
      · intro h0
        rw [render] at h0 ⊢
        have hall : ∀ s ∈ renderList 1 d bodies, s = "" := by
          intro s hsmem
          apply ihP s hsmem
          apply joinTail_no_sep_eq_empty _ (by rw [← hs1]; exact h0)
          exact List.mem_map_of_mem _ hsmem
        rw [show nlOf 1 = "\n" from rfl]
        exact innerAcc_all_empty "\n" _ hall

theorem renderList_lined_strips (d : Nat) (ns : List Node) (h : nodesNoNL ns = true) :
    renderList 0 d ns = (renderList 1 d ns).map stripNL
    ∧ (∀ s ∈ renderList 1 d ns, stripNL s = "" → s = "") := by
  cases ns with
  | nil =>
      exact ⟨rfl, fun s hs => absurd hs (List.not_mem_nil s)⟩
  | cons n rest =>
      rw [nodesNoNL, Bool.and_eq_true] at h
      have ih1 := render_lined_strips d n h.1
      have ih2 := renderList_lined_strips d rest h.2
      constructor
      · rw [renderList, renderList, List.map_cons, ih1.1, ih2.1]
      · intro s hs
        rw [renderList] at hs
        rcases List.mem_cons.mp hs with h1 | h2
        · exact h1 ▸ ih1.2
        · exact ih2.2 s h2

end

/-- C7 counterexample: when the tree's own content contains a newline (here
    the text child `"a\nb"`), deleting newlines from the `btfy0` rendering
    also deletes the content newline, so the `Lined` rendering differs. -/
theorem lined_strips_btfy0_counterexample :
    render 0 0 (Node.elem "p" [] [Node.text "a\nb"])
      ≠ stripNL (render 1 0 (Node.elem "p" [] [Node.text "a\nb"])) := by decide

/-- C7 (amended): for every markup tree whose tag names, attribute keys,
    attribute values and text contents contain no newline character, the
    `Lined` rendering is exactly the `btfy0` (indent-width-0) rendering with
    every newline character deleted. -/
theorem lined_strips_btfy0 (t : Node) (d : Nat) (h : nodeNoNL t = true) :
    render 0 d t = stripNL (render 1 d t) :=
  (render_lined_strips d t h).1

/-- Witness for C7 (amended) on a concrete newline-free tree. -/
theorem lined_strips_btfy0_witness :
    render 0 0 (Node.elem "ul" [("x-a", "1")] [Node.elem "li" [] [Node.text "hi"]])
      = stripNL (render 1 0 (Node.elem "ul" [("x-a", "1")]
          [Node.elem "li" [] [Node.text "hi"]])) :=
  lined_strips_btfy0 (Node.elem "ul" [("x-a", "1")] [Node.elem "li" [] [Node.text "hi"]])
    0 (by decide)

end ForgeRsx
